import Mathlib

/-!
Shallow embedding of the chordbase music-theory core (Interval, Note, Scale,
Chord, ChordWithBase) and proofs about its documented properties.

JavaScript semantics are modelled explicitly:
- `%` on integers is truncated remainder (`Int.tmod`), `Math.floor (a / b)` is
  floored division (`Int.fdiv`);
- an out-of-range array read yields `undefined`; when the program goes on to
  *use* such a value in a way that throws (or poisons the result with `NaN`
  through arithmetic), the embedded function returns `none`;
- object-key iteration order of `Chord.MAINS` is insertion order
  (dim, min, dom, maj).
-/

namespace Chordbase

/-- JS array read `l[i]` with a possibly negative index: out of range gives
`undefined`, modelled as `none`. -/
def jsIdxStr (l : List String) (i : Int) : Option String :=
  if i < 0 then none else l.get? i.toNat

/-- JS array read for integer tables. -/
def jsIdxInt (l : List Int) (i : Int) : Option Int :=
  if i < 0 then none else l.get? i.toNat

/-- JS array read for character tables. -/
def jsIdxChar (l : List Char) (i : Int) : Option Char :=
  if i < 0 then none else l.get? i.toNat

/-- Character class `[0-9]` of the source's regexes. -/
def isDigitChar (c : Char) : Bool := 48 ≤ c.toNat ∧ c.toNat ≤ 57

/-- Character class `[A-Ga-g]` used by `Note.strToNote`. -/
def isNoteLetterChar (c : Char) : Bool :=
  (65 ≤ c.toNat ∧ c.toNat ≤ 71) ∨ (97 ≤ c.toNat ∧ c.toNat ≤ 103)

/-- Decimal value of a digit run. -/
def digitsVal (l : List Char) : Nat :=
  l.foldl (fun a c => a * 10 + (c.toNat - 48)) 0

/-- JS `parseInt(s, 10)`: optional minus sign, then the leading digit run;
`NaN` (no digits) is modelled as `none`. -/
def jsParseInt (s : String) : Option Int :=
  match s.data with
  | '-' :: r =>
      let ds := r.takeWhile isDigitChar
      if ds = [] then none else some (-(digitsVal ds : Int))
  | l =>
      let ds := l.takeWhile isDigitChar
      if ds = [] then none else some (digitsVal ds : Int)

/-- Does the character list start with the given literal? -/
def headMatches : List Char → List Char → Bool
  | _, [] => true
  | [], _ :: _ => false
  | c :: cs, p :: ps => c = p && headMatches cs ps

/-- JS `string.match(/lit/) !== null`: does `lit` occur anywhere in the text? -/
def hasSub (pat : List Char) : List Char → Bool
  | [] => headMatches [] pat
  | c :: rest => headMatches (c :: rest) pat || hasSub pat rest

/-- The unaltered-degree semitone table `[0, 2, 4, 5, 7, 9, 11]`. -/
def majorTable : List Int := [0, 2, 4, 5, 7, 9, 11]

/-- Interval value: diatonic `number` and chromatic `quality`
(source: Interval.js). -/
structure Interval where
  number : Int
  quality : Int
  deriving DecidableEq, Repr

/-- The Interval constructor: quality is reduced by JS `% 12` (truncated)
whenever it is `≤ -12` or `≥ 12`. -/
def Interval.mk' (number quality : Int) : Interval :=
  if quality ≤ -12 ∨ 12 ≤ quality then ⟨number, quality.tmod 12⟩
  else ⟨number, quality⟩

/-- `Interval.toString`: quality letter (A, or P/D for the perfect class
1/4/5 mod 7, or D/m/M with "M" as the default) followed by the number. -/
def Interval.str (i : Interval) : String :=
  let name :=
    if i.quality = 1 then "A"
    else if i.number.tmod 7 = 1 ∨ i.number.tmod 7 = 4 ∨ i.number.tmod 7 = 5 then
      (if i.quality = -1 then "D" else "P")
    else if i.quality = -2 then "D"
    else if i.quality = -1 then "m"
    else "M"
  name ++ toString i.number

/-- `Interval.strToInterval`: leading quality letter against the
class-appropriate map (`qualityMap[c] || 0`), number from `parseInt` of the
rest. -/
def Interval.strToInterval (s : String) : Interval :=
  let c := match s.data with | [] => 'A' | x :: _ => x
  let n := (jsParseInt (s.drop 1)).getD 0
  let quality :=
    if n.tmod 7 = 1 ∨ n.tmod 7 = 4 ∨ n.tmod 7 = 5 then
      (if c = 'A' then (1 : Int) else if c = 'D' then -1 else 0)
    else
      (if c = 'M' then (0 : Int) else if c = 'm' then -1
       else if c = 'A' then 1 else if c = 'D' then -2 else 0)
  Interval.mk' n quality

/-- `Interval.toSemitones()`: table value at `(number-1) % 7` plus quality plus
octave displacement; a negative table index (number ≤ 0) reads `undefined`
and poisons the result (`none`). -/
def Interval.toSemitones (i : Interval) : Option Int :=
  (jsIdxInt majorTable ((i.number - 1).tmod 7)).map
    (fun b => b + i.quality + ((i.number - 1).fdiv 7) * 12)

/-- Note value: letter character, accidental text, octave (source: Note.js;
the constructor splits the name into `name[0]` and `name.slice(1)`). -/
structure Note where
  letter : Char
  accidental : String
  octave : Int
  deriving DecidableEq, Repr

/-- The chromatic name table `Note.NOTES`. -/
def NOTES : List String :=
  ["C", "C#", "D", "D#", "E", "F"] ++ ["F#", "G", "G#", "A", "A#", "B"]

/-- The diatonic letter row `"CDEFGAB"` used by `Note.add`/`Note.subtract`. -/
def lettersRow : List Char := ['C', 'D', 'E', 'F', 'G', 'A', 'B']

/-- The Note constructor applied to a name string and octave. -/
def noteName (name : String) (octave : Int) : Note :=
  match name.data with
  | [] => ⟨'A', "", octave⟩
  | c :: r => ⟨c, String.mk r, octave⟩

/-- JS `indexOf` on a string list: `-1` when absent. -/
def indexOfStr (l : List String) (s : String) : Int :=
  match l.findIdx? (· = s) with
  | some i => (i : Int)
  | none => -1

/-- JS `indexOf` on a character list: `-1` when absent. -/
def indexOfChar (l : List Char) (c : Char) : Int :=
  match l.findIdx? (· = c) with
  | some i => (i : Int)
  | none => -1

/-- Net accidental count: occurrences of '#' minus occurrences of 'b'. -/
def Note.accCount (n : Note) : Int :=
  ((n.accidental.data.filter (· = '#')).length : Int) -
    ((n.accidental.data.filter (· = 'b')).length : Int)

/-- `enharmonicEquiv()` with no options (favor natural, no force, no letter):
index into `NOTES` at `(baseIndex + accidentals) % 12`; a negative truncated
remainder reads `undefined` and the subsequent `new Note(undefined, ...)`
throws, modelled as `none`. -/
def Note.enharmonicEquiv (n : Note) : Option Note :=
  let baseIndex := indexOfStr NOTES (String.mk [n.letter])
  let shifted := (baseIndex + n.accCount).tmod 12
  (jsIdxStr NOTES shifted).map (fun enh =>
    let newOct :=
      if enh = "B#" then n.octave - 1
      else if enh = "Cb" then n.octave + 1
      else n.octave
    noteName enh newOct)

/-- `note.toSemitones()`: chromatic index of the enharmonic respelling plus
`octave * 12 + 12`. -/
def Note.toSemitones (n : Note) : Option Int :=
  n.enharmonicEquiv.map (fun e =>
    indexOfStr NOTES (String.mk [e.letter] ++ e.accidental) + n.octave * 12 + 12)

/-- `enharmonicEquiv({letter})`: wrap the chromatic difference to the target
letter into `[-6, 6]` and respell with a run of sharps or flats; a zero
difference keeps the plain table name. -/
def Note.enharmonicEquivLetter (n : Note) (letter : String) : Option Note :=
  let baseIndex := indexOfStr NOTES (String.mk [n.letter])
  let shifted := (baseIndex + n.accCount).tmod 12
  let letterIndex := indexOfStr NOTES letter
  let d0 := (shifted - letterIndex).tmod 12
  let d := if 6 < d0 then d0 - 12 else if d0 < -6 then d0 + 12 else d0
  let enhM : Option String :=
    if 0 < d then some (letter ++ String.mk (List.replicate d.toNat '#'))
    else if d < 0 then some (letter ++ String.mk (List.replicate (-d).toNat 'b'))
    else jsIdxStr NOTES shifted
  enhM.map (fun enh =>
    let newOct :=
      if enh = "B#" then n.octave - 1
      else if enh = "Cb" then n.octave + 1
      else n.octave
    noteName enh newOct)

/-- `Note.intToNote`: chromatic table name at `num % 12` (an out-of-range read
for negative input throws downstream, modelled `none`), octave
`⌊num / 12⌋ - 1`. -/
def Note.intToNote (num : Int) : Option Note :=
  (jsIdxStr NOTES (num.tmod 12)).map (fun nm => noteName nm (num.fdiv 12 - 1))

/-- `note.add(interval)`: pick the chromatic target via `intToNote`, then force
the diatonic target letter via `enharmonicEquiv({letter})`; an undefined target
letter (unreachable for well-formed notes) falls back to the optionless
`enharmonicEquiv`, as the undefined `letter` option is falsy in JS. -/
def Note.add (n : Note) (i : Interval) : Option Note := do
  let ts ← n.toSemitones
  let its ← i.toSemitones
  let note ← Note.intToNote (ts + its)
  let selfIndex := indexOfChar lettersRow n.letter
  match jsIdxChar lettersRow ((selfIndex + i.number - 1).tmod 7) with
  | some newLetter => note.enharmonicEquivLetter (String.mk [newLetter])
  | none => note.enharmonicEquiv

/-- `note.subtract(other)`: diatonic number from the truncated-remainder letter
difference plus octave correction, quality from the chromatic difference minus
the expected table value; an out-of-range table read poisons the quality with
`NaN`, modelled `none`. -/
def Note.subtract (self other : Note) : Option Interval := do
  let selfIndex := indexOfChar lettersRow self.letter
  let otherIndex := indexOfChar lettersRow other.letter
  let d0 := (selfIndex - otherIndex).tmod 7 + 1
  let st ← self.toSemitones
  let ot ← other.toSemitones
  let chromaticDifference := st - ot
  let octaveDifference0 := self.octave - other.octave
  let octaveDifference :=
    if selfIndex < otherIndex then octaveDifference0 - 1 else octaveDifference0
  let diatonicInterval := d0 + octaveDifference * 7
  let base ← jsIdxInt majorTable ((diatonicInterval - 1).tmod 7)
  let baseSemitones := base + octaveDifference * 12
  pure (Interval.mk' diatonicInterval (chromaticDifference - baseSemitones))

/-- Scale value: base note plus intervals (source: Scale.js). -/
structure Scale where
  base : Note
  intervals : List Interval
  deriving DecidableEq, Repr

/-- The built-in scale name list `Scale.SCALES`. -/
def SCALES : List String :=
  ["major",
   "natural minor", "harmonic minor", "melodic minor",
   "major pentatonic scale", "minor pentatonic scale",
   "blues scale"]

/-- JS `scale.intervals[i].quality = q` (no-op on an absent index, which the
source never hits). -/
def setQualityAt (l : List Interval) (i : Nat) (q : Int) : List Interval :=
  match l.get? i with
  | some iv => l.set i ⟨iv.number, q⟩
  | none => l

/-- JS `filter((_, i) => !idxs.includes(i))`. -/
def dropIdxs (l : List Interval) (idxs : List Nat) : List Interval :=
  (l.enum.filter (fun p => p.1 ∉ idxs)).map (·.2)

/-- The comparator of the Chord/Scale constructors: ascending by
`(number, quality)`. -/
def ivLe (a b : Interval) : Bool :=
  a.number < b.number ∨ (a.number = b.number ∧ a.quality ≤ b.quality)

/-- Stable insertion step for `sortIntervals`. -/
def insertIv (a : Interval) : List Interval → List Interval
  | [] => [a]
  | b :: r => if ivLe a b then a :: b :: r else b :: insertIv a r

/-- Stable sort by `(number, quality)`, the effect of the JS `Array.sort`
comparator in the Chord and Scale constructors. -/
def sortIntervals : List Interval → List Interval
  | [] => []
  | a :: r => insertIv a (sortIntervals r)

/-- `Scale.generateScale(name, base)`: the 7-note major template adjusted by
the fixed per-name recipe; an unrecognized name returns `new Scale(base)`,
which has no intervals at all. -/
def generateScale (name : String) (base : Note) : Scale :=
  let ivs : List Interval := (List.range 6).map (fun i => ⟨(i : Int) + 2, 0⟩)
  if name = "major" then ⟨base, ivs⟩
  else if name = "natural minor" then
    ⟨base, setQualityAt (setQualityAt (setQualityAt ivs 1 (-1)) 4 (-1)) 5 (-1)⟩
  else if name = "harmonic minor" then
    ⟨base, setQualityAt (setQualityAt ivs 1 (-1)) 4 (-1)⟩
  else if name = "melodic minor" then ⟨base, setQualityAt ivs 1 (-1)⟩
  else if name = "major pentatonic scale" then ⟨base, dropIdxs ivs [2, 5]⟩
  else if name = "minor pentatonic scale" then
    ⟨base, dropIdxs (setQualityAt (setQualityAt ivs 1 (-1)) 5 (-1)) [0, 4]⟩
  else if name = "blues scale" then
    ⟨base, sortIntervals
      (dropIdxs (setQualityAt (setQualityAt ivs 1 (-1)) 5 (-1)) [0, 4] ++ [⟨4, 1⟩])⟩
  else ⟨base, []⟩

/-- `scale.notes()`: the base followed by `base.add(interval)` for each
interval. -/
def Scale.notes (s : Scale) : Option (List Note) :=
  (s.intervals.mapM (Note.add s.base)).map (s.base :: ·)

/-- Chord value: a root-relative interval list (source: the Chord module). -/
structure Chord where
  intervals : List Interval
  deriving DecidableEq, Repr

/-- The Chord constructor sorts its arguments. -/
def Chord.mkChord (l : List Interval) : Chord := ⟨sortIntervals l⟩

/-- The interval strings of a chord, `this.intervals.map(i => String(i))`. -/
def Chord.strings (c : Chord) : List String := c.intervals.map Interval.str

/-- The four rows of `Chord.MAINS`, in insertion order dim, min, dom, maj. -/
def MAINSdim : List String := ["P1", "m3", "D5", "D7", "M9", "P11", "M13"]

/-- Row "min" of `Chord.MAINS`. -/
def MAINSmin : List String := ["P1", "m3", "P5", "m7", "M9", "P11", "M13"]

/-- Row "dom" of `Chord.MAINS`. -/
def MAINSdom : List String := ["P1", "M3", "P5", "m7", "M9", "P11", "M13"]

/-- Row "maj" of `Chord.MAINS`. -/
def MAINSmaj : List String := ["P1", "M3", "P5", "M7", "M9", "P11", "M13"]

/-- `Chord.MAINS[q]` for the four defined keys; any other key is `undefined`
(`none`). -/
def mainsTable (q : String) : Option (List String) :=
  if q = "dim" then some MAINSdim
  else if q = "min" then some MAINSmin
  else if q = "dom" then some MAINSdom
  else if q = "maj" then some MAINSmaj
  else none

/-- `Chord.MAINS[q]` where the key is known to be defined (the `id()` path
only ever looks up the result of `quality()`). -/
def MAINSlist (q : String) : List String := (mainsTable q).getD []

/-- `quality()` over the interval-string list. -/
def qualityOf (ss : List String) : String :=
  if "m3" ∈ ss then
    (if "D5" ∈ ss ∧ "D7" ∈ ss then "dim" else "min")
  else if "M7" ∈ ss then "maj"
  else "dom"

/-- `sus()` over the interval-string list. -/
def susOf (ss : List String) : String :=
  if "m3" ∉ ss ∧ "M3" ∉ ss ∧ "M2" ∈ ss then "sus2"
  else if "M4" ∈ ss then "sus4"
  else ""

/-- `chord.quality()`. -/
def Chord.quality (c : Chord) : String := qualityOf c.strings

/-- `chord.sus()`. -/
def Chord.sus (c : Chord) : String := susOf c.strings

/-- `structure()`: "power" for a single interval printing as "P5"; otherwise
the source filters with `i % 2` where `i` is an Interval *object*, which is
`NaN` and falsy, so the filter keeps nothing, `Math.max()` of no arguments is
`-Infinity`, and the switch falls through to `""`. -/
def Chord.structureName (c : Chord) : String :=
  if c.intervals.length = 1 ∧ c.strings = ["P5"] then "power"
  else
    let odds := c.intervals.filter (fun _ => false)
    match (odds.map Interval.quality).max? with
    | some 1 => "unison"
    | some 3 => "third"
    | some 5 => "triad"
    | some 7 => "seventh"
    | some 9 => "ninth"
    | some 11 => "eleventh"
    | some 13 => "thirteenth"
    | _ => ""

/-- Column `i` of `Chord.MAINS` as scanned by `id()`:
`Object.values(Chord.MAINS).map(m => m[i]).reverse()`. -/
def columnAt (i : Nat) : List String :=
  ([MAINSdim, MAINSmin, MAINSdom, MAINSmaj].map (fun m => m.getD i "")).reverse

/-- One level of the main-number scan: the first chord interval string lying in
column `i`, with its quality letter stripped (`interval.substring(1)`). -/
def levelHit (ss : List String) (i : Nat) : Option String :=
  ss.findSome? (fun s => if s ∈ columnAt i then some (s.drop 1) else none)

/-- The `id()` main-number scan, `i` from 6 down to 1, defaulting to "1". -/
def findMain (ss : List String) : String :=
  match levelHit ss 6 with
  | some v => v
  | none =>
  match levelHit ss 5 with
  | some v => v
  | none =>
  match levelHit ss 4 with
  | some v => v
  | none =>
  match levelHit ss 3 with
  | some v => v
  | none =>
  match levelHit ss 2 with
  | some v => v
  | none =>
  match levelHit ss 1 with
  | some v => v
  | none => "1"

/-- The alteration test of the `id()` classification loop: an odd number whose
string differs from `Chord.MAINS[quality][Math.floor(number/2)]`. A string
whose tail fails `parseInt` has a `NaN` number and passes neither parity
test. -/
def alterCond (q : String) (s : String) : Bool :=
  match jsParseInt (s.drop 1) with
  | none => false
  | some n => n.tmod 2 = 1 ∧ jsIdxStr (MAINSlist q) (n.fdiv 2) ≠ some s

/-- The addition test of the `id()` classification loop: an even number not
consumed by the sus tag (`sus.slice(3) !== String(number)`). -/
def addCond (susSl : String) (s : String) : Bool :=
  match jsParseInt (s.drop 1) with
  | none => false
  | some n => n.tmod 2 = 0 ∧ susSl ≠ toString n

/-- `id()` over the interval-string list and optional root letter. The
alteration/addition pushes build `new Interval(str)` with the *string* in the
number slot and `undefined` quality, so the later rendering
`(q>0 ? "#" : q<0 ? "b" : "") + number` emits the raw interval string; the
dead `sus2`+"M4" branch pushes a numeric `new Interval(4, 0)`, rendered
"4". -/
def idStrings (ss : List String) (bl : Option Char) : String :=
  let q := qualityOf ss
  let sus := susOf ss
  let mainNumber := findMain ss
  let additionsPre : List String :=
    if sus = "sus2" ∧ "M4" ∈ ss then ["4"] else []
  let augb := "A5" ∈ ss
  let alts := ss.filter (alterCond q)
  let adds := additionsPre ++ ss.filter (addCond (sus.drop 3))
  let qs :=
    if q = "dom" ∨ (q = "maj" ∧ (jsParseInt mainNumber).getD 0 ≤ 5) then ""
    else q
  let ms := if mainNumber = "5" ∨ mainNumber = "1" then "" else mainNumber
  (match bl with | some ch => String.mk [ch] | none => "") ++ "^" ++
    (if augb then "aug" else "") ++ sus ++ qs ++ ms ++
    String.join alts ++ String.join adds

/-- `chord.id(base)`: only the root's letter is used in the output. -/
def Chord.id (c : Chord) (base : Option Note) : String :=
  idStrings c.strings (base.map Note.letter)

/-- `idToChord` base pattern `^[A-G][#b]*`, anchored at the start. -/
def baseScan (l : List Char) : Option (List Char) :=
  match l with
  | [] => none
  | c :: rest =>
      if 65 ≤ c.toNat ∧ c.toNat ≤ 71 then
        some (c :: rest.takeWhile (fun d => d = '#' ∨ d = 'b'))
      else none

/-- A `sus\d+` match starting exactly here. -/
def susHere (l : List Char) : Option String :=
  match l with
  | 's' :: 'u' :: 's' :: rest =>
      let ds := rest.takeWhile isDigitChar
      if ds = [] then none else some (String.mk ('s' :: 'u' :: 's' :: ds))
  | _ => none

/-- First (leftmost, greedy) match of `/(sus\d+)/`. -/
def susScan : List Char → Option String
  | [] => none
  | c :: rest =>
      match susHere (c :: rest) with
      | some r => some r
      | none => susScan rest

/-- The five literal alternatives of the quality pattern. -/
def qualityTags : List (List Char) :=
  ["^min".data, "^maj".data, "^aug".data, "^dim".data, "^dom".data]

/-- First match of `/(\^min|\^maj|\^aug|\^dim|\^dom)/`, with the caret
stripped (`match[0].slice(1)`). -/
def qualScan : List Char → Option String
  | [] => none
  | c :: rest =>
      match qualityTags.findSome?
          (fun t => if headMatches (c :: rest) t then some (String.mk (t.drop 1)) else none) with
      | some q => some q
      | none => qualScan rest

/-- First maximal digit run, as `parseInt` of the first `/(\d+)/` match. -/
def numScan : List Char → Option Nat
  | [] => none
  | c :: rest =>
      if isDigitChar c then some (digitsVal (c :: rest.takeWhile isDigitChar))
      else numScan rest

/-- The parsed quality field of an id text, with its "dom" default. -/
def parsedQualityOf (s : String) : String := (qualScan s.data).getD "dom"

/-- The parsed main number of an id text, with its default of 5. -/
def parsedMainOf (s : String) : Nat := (numScan s.data).getD 5

/-- All matches of the global alteration pattern `/([b#♮]\d+)/g`, scanning
left to right and resuming after each match (fuel-driven so the kernel can
evaluate it; the fuel is the text length, which always suffices). -/
def alterScanF : Nat → List Char → List String
  | 0, _ => []
  | _, [] => []
  | fuel + 1, c :: rest =>
      if c = 'b' ∨ c = '#' ∨ c = '♮' then
        let ds := rest.takeWhile isDigitChar
        if ds = [] then alterScanF fuel rest
        else String.mk (c :: ds) :: alterScanF fuel (rest.drop ds.length)
      else alterScanF fuel rest

/-- An `add[b#]?\d+` match starting exactly here, with the remainder of the
text after the match. -/
def addHere (l : List Char) : Option (String × List Char) :=
  match l with
  | 'a' :: 'd' :: 'd' :: c :: rest =>
      if c = 'b' ∨ c = '#' then
        let ds := rest.takeWhile isDigitChar
        if ds = [] then none
        else some (String.mk ('a' :: 'd' :: 'd' :: c :: ds), rest.drop ds.length)
      else if isDigitChar c then
        let ds := rest.takeWhile isDigitChar
        some (String.mk ('a' :: 'd' :: 'd' :: c :: ds), rest.drop ds.length)
      else none
  | _ => none

/-- All matches of the global addition pattern `/add[b#]?\d+/g`. -/
def addScanF : Nat → List Char → List String
  | 0, _ => []
  | _, [] => []
  | fuel + 1, c :: rest =>
      match addHere (c :: rest) with
      | some (m, after) => m :: addScanF fuel after
      | none => addScanF fuel rest

/-- Signed accidental count of a tag: '#' occurrences minus 'b'
occurrences. -/
def tagQuality (t : String) : Int :=
  ((t.data.filter (· = '#')).length : Int) - ((t.data.filter (· = 'b')).length : Int)

/-- `parseInt(tag.replace(/\D/g, ""))`: the concatenated digits of a tag. -/
def tagNumber (t : String) : Int := (digitsVal (t.data.filter isDigitChar) : Int)

/-- The `idToChord` reconstruction loop over `Chord.MAINS[quality]`:
`for i in 0..length-1`, read `MAINS[quality][i+1]` and push it while
`i+1 ≤ ⌊mainNumber/2⌋`, substituting A5 for "P5" under `aug`. Reading the
`undefined` entry at index 7 and feeding it to `strToInterval` throws,
modelled as `none`. -/
def buildLoop (tbl : List String) (augb : Bool) (mainNumber : Nat) :
    Option (List Interval × Bool) :=
  (List.range tbl.length).foldlM
    (fun (acc : List Interval × Bool) i =>
      if i + 1 ≤ mainNumber / 2 then
        match tbl.get? (i + 1) with
        | none => none
        | some entry =>
            if augb ∧ entry = "P5" then
              some (acc.1 ++ [Interval.strToInterval "A5"], true)
            else some (acc.1 ++ [Interval.strToInterval entry], acc.2)
      else some acc)
    ([], false)

/-- The parse result of `idToChord`: the matched root text (if any) and the
interval list fed to the Chord constructor. -/
structure ParsedChord where
  base : Option (List Char)
  intervals : List Interval
  deriving DecidableEq, Repr

/-- `Chord.idToChord(chordid)`: regex field extraction, canonical-table
reconstruction, then sus, additions and alterations. Returns `none` where the
JS throws: `Chord.MAINS[quality]` undefined (quality parsed as "aug"), or a
table read past the end (main number ≥ 14). -/
def idToChord (chordid : String) : Option ParsedChord :=
  let l := chordid.data
  let baseM := baseScan l
  let augb := hasSub "aug".data l
  let sus := (susScan l).getD ""
  let q := parsedQualityOf chordid
  let mainNumber := parsedMainOf chordid
  let alts := alterScanF l.length l
  let adds := addScanF l.length l
  match mainsTable q with
  | none => none
  | some tbl =>
    match buildLoop tbl augb mainNumber with
    | none => none
    | some (ivs0, existing5) =>
      let ivs1 :=
        if augb ∧ ¬existing5 then ivs0 ++ [Interval.strToInterval "A5"] else ivs0
      let ivs2 :=
        if sus ≠ "" then ivs1 ++ [Interval.strToInterval ("M" ++ sus.drop 3)]
        else ivs1
      let ivs3 := ivs2 ++ adds.map (fun a => Interval.mk' (tagNumber a) (tagQuality a))
      let ivs4 := alts.foldl
        (fun acc alt =>
          if ("add" ++ alt) ∈ adds then acc
          else (acc.filter (fun iv => iv.number ≠ tagNumber alt)) ++
            [Interval.mk' (tagNumber alt) (tagQuality alt)])
        ivs3
      some ⟨baseM, ivs4⟩

/-- The round-trip composite `idToChord(chord.id(base)).id(base)`: the outer
`id` call passes the same base explicitly, so it applies whether or not the
parse produced a rooted chord. -/
def roundTrip (c : Chord) (base : Option Note) : Option String :=
  (idToChord (c.id base)).map (fun p => (Chord.mkChord p.intervals).id base)

/-- A `[A-Ga-g]+[0-9]+` match starting exactly here: the maximal run of note
letters, then the maximal run of digits, both required nonempty. -/
def noteMatchHere (l : List Char) : Option (List Char × List Char) :=
  if l.takeWhile isNoteLetterChar = [] then none
  else if (l.dropWhile isNoteLetterChar).takeWhile isDigitChar = [] then none
  else some (l.takeWhile isNoteLetterChar,
    (l.dropWhile isNoteLetterChar).takeWhile isDigitChar)

/-- Leftmost match of the unanchored `/([A-Ga-g]+)([0-9]+)/`. -/
def noteScan : List Char → Option (List Char × List Char)
  | [] => none
  | c :: rest =>
      match noteMatchHere (c :: rest) with
      | some r => some r
      | none => noteScan rest

/-- `Note.strToNote`: the first `<letters><digits>` substring becomes
`new Note(letters, parseInt(digits))`; no match gives `null`. -/
def Note.strToNote (s : String) : Option Note :=
  (noteScan s.data).map (fun ab => noteName (String.mk ab.1) (digitsVal ab.2))

/-- The claim's input form: the whole text is a nonempty run of note letters
followed by a nonempty run of digits. -/
def isNoteForm (s : String) : Bool :=
  let a := s.data.takeWhile isNoteLetterChar
  let b := s.data.dropWhile isNoteLetterChar
  a ≠ [] ∧ b ≠ [] ∧ b.all isDigitChar

/-- ChordWithBase: a chord anchored at a base note; the inherited constructor
sorts the intervals. -/
structure ChordWithBase where
  base : Note
  intervals : List Interval
  deriving DecidableEq, Repr

/-- The ChordWithBase constructor. -/
def mkChordWithBase (base : Note) (l : List Interval) : ChordWithBase :=
  ⟨base, sortIntervals l⟩

/-- `chord.notes(base)`: the base followed by `base.add(interval)` for each
interval. -/
def Chord.notes (c : Chord) (base : Note) : Option (List Note) :=
  (c.intervals.mapM (Note.add base)).map (base :: ·)

/-- `chordWithBase.notes()` uses the chord's own base. -/
def ChordWithBase.notes (c : ChordWithBase) : Option (List Note) :=
  Chord.notes ⟨c.intervals⟩ c.base

/-- `notes.map(n => n.toSemitones() % 12)`. -/
def pcsOfNotes (ns : List Note) : Option (List Int) :=
  ns.mapM (fun n => (Note.toSemitones n).map (fun t => t.tmod 12))

/-- The pitch-class list of a rooted chord, as `findMatchingScales`
computes it. -/
def chordPcs (c : ChordWithBase) : Option (List Int) :=
  c.notes.bind pcsOfNotes

/-- The pitch-class list of `generateScale(scaleName, new Note(root, 4))`. -/
def scalePcs (root scaleName : String) : Option (List Int) :=
  ((generateScale scaleName (noteName root 4)).notes).bind pcsOfNotes

/-- The `(count, total)` pair computed inside `findMatchingScales`: how many
entries of the chord's pitch-class *list* lie in the scale's pitch-class list,
and the length of the chord's list. -/
def countFor (c : ChordWithBase) (root scaleName : String) : Option (Nat × Nat) := do
  let cn ← chordPcs c
  let sn ← scalePcs root scaleName
  pure ((cn.filter (· ∈ sn)).length, cn.length)

/-- `proportion = count / chordNotes.length` as an exact rational. -/
def proportionFor (c : ChordWithBase) (root scaleName : String) : Option ℚ :=
  (countFor c root scaleName).map (fun kn => (kn.1 : ℚ) / (kn.2 : ℚ))

/-- Follows the claim's words: the cardinality of the *set* intersection of
chord and scale pitch classes over the cardinality of the chord's pitch-class
set. -/
def specCountFor (c : ChordWithBase) (root scaleName : String) :
    Option (Nat × Nat) := do
  let cn ← chordPcs c
  let sn ← scalePcs root scaleName
  pure ((cn.toFinset ∩ sn.toFinset).card, cn.toFinset.card)

/-- Follows the claim's words: `|chord pcs ∩ scale pcs| / |chord pcs|` with
pitch classes read as sets. -/
def specProportionFor (c : ChordWithBase) (root scaleName : String) : Option ℚ :=
  (specCountFor c root scaleName).map (fun kn => (kn.1 : ℚ) / (kn.2 : ℚ))

/-- The label `` `${note} ${scale}` `` of one grid entry. -/
def scaleLabel (rs : String × String) : String := rs.1 ++ " " ++ rs.2

/-- The 12 × 7 iteration grid of `findMatchingScales`, in iteration order. -/
def rootScalePairs : List (String × String) :=
  NOTES.flatMap (fun n => SCALES.map (fun s => (n, s)))

/-- `findMatchingScales()` read at one key: the labels whose proportion equals
`p`, in grid order (the JS builds a proportion-keyed dictionary by pushing in
this order). -/
def ChordWithBase.findMatchingScales (c : ChordWithBase) (p : ℚ) : List String :=
  (rootScalePairs.filter (fun rs => proportionFor c rs.1 rs.2 = some p)).map
    scaleLabel

/-- The major triad (M3, P5) rooted at C used by the C6 example. -/
def triadC : ChordWithBase := mkChordWithBase ⟨'C', "", 4⟩ [⟨3, 0⟩, ⟨5, 0⟩]

/-- A chord whose note list repeats pitch class 0 (M3 plus a perfect octave at
C), giving multiplicity-weighted proportions. -/
def dupChordC : ChordWithBase := mkChordWithBase ⟨'C', "", 4⟩ [⟨3, 0⟩, ⟨8, 0⟩]

/-- The four quality tags `quality()` can return. -/
def qualList : List String := ["dim", "min", "dom", "maj"]

/-- The seven main-number strings the `id()` scan can produce. -/
def mainList : List String := ["1", "3", "5", "7", "9", "11", "13"]

/-- The main numbers reachable when a seventh is present. -/
def bigMainList : List String := ["7", "9", "11", "13"]

/-- The admissible root prefixes of an id: no root, or a letter A..G. -/
def baseLetterOpts : List (Option Char) :=
  [none, some 'A', some 'B', some 'C', some 'D', some 'E', some 'F', some 'G']

/-- The shape `id()` produces for a chord with no sus, no augmented fifth and
no alteration or addition tags: root letter, caret, quality tag (suppressed
for "dom", and for "maj" up to main number 5), main number (suppressed when
"5" or "1"). -/
def renderId (q m : String) (bl : Option Char) : String :=
  (match bl with | some ch => String.mk [ch] | none => "") ++ "^" ++
    (if q = "dom" ∨ (q = "maj" ∧ (jsParseInt m).getD 0 ≤ 5) then "" else q) ++
    (if m = "5" ∨ m = "1" then "" else m)

/-- Whether some chord interval string lies in column `i` of the table. -/
def colHit (ss : List String) (i : Nat) : Bool := ss.any (· ∈ columnAt i)

theorem qualityOf_mem (ss : List String) : qualityOf ss ∈ qualList := by
  unfold qualityOf qualList
  split_ifs <;> simp

theorem qualityOf_dim (ss : List String) (h : qualityOf ss = "dim") :
    "D7" ∈ ss := by
  unfold qualityOf at h
  split_ifs at h with h1 h2
  · exact h2.2
  all_goals simp at h

theorem notInTables : ∀ x ∈ (["M2", "M4", "A5"] : List String),
    ∀ q ∈ qualList, x ∉ MAINSlist q := by decide

theorem noAlter : ∀ q ∈ qualList, ∀ s ∈ MAINSlist q, alterCond q s = false := by
  decide

theorem noAdd : ∀ q ∈ qualList, ∀ s ∈ MAINSlist q, addCond "" s = false := by
  decide

theorem levelHit_eq (i : Nat) (dv : String)
    (h : ∀ s ∈ columnAt i, s.drop 1 = dv) (ss : List String) :
    levelHit ss i = if colHit ss i then some dv else none := by
  induction ss with
  | nil => rfl
  | cons s rest ih =>
      unfold levelHit at ih ⊢
      rw [List.findSome?_cons]
      unfold colHit at ih ⊢
      rw [List.any_cons]
      by_cases hs : s ∈ columnAt i
      · simp [hs, h s hs]
      · simp [hs, ih]

theorem findMain_eq (ss : List String) : findMain ss =
    (if colHit ss 6 then "13" else if colHit ss 5 then "11"
     else if colHit ss 4 then "9" else if colHit ss 3 then "7"
     else if colHit ss 2 then "5" else if colHit ss 1 then "3" else "1") := by
  unfold findMain
  rw [levelHit_eq 6 "13" (by decide), levelHit_eq 5 "11" (by decide),
    levelHit_eq 4 "9" (by decide), levelHit_eq 3 "7" (by decide),
    levelHit_eq 2 "5" (by decide), levelHit_eq 1 "3" (by decide)]
  rcases colHit ss 6 <;> rcases colHit ss 5 <;> rcases colHit ss 4 <;>
    rcases colHit ss 3 <;> rcases colHit ss 2 <;> rcases colHit ss 1 <;> rfl

theorem findMain_mem (ss : List String) : findMain ss ∈ mainList := by
  rw [findMain_eq]
  split_ifs <;> decide

theorem findMain_big (ss : List String) (h : "D7" ∈ ss) :
    findMain ss ∈ bigMainList := by
  have h3 : colHit ss 3 = true := by
    unfold colHit
    rw [List.any_eq_true]
    exact ⟨"D7", h, by decide⟩
  rw [findMain_eq]
  simp only [h3, eq_self_iff_true, if_true]
  split_ifs <;> decide

theorem id_eq_render (ss : List String) (bl : Option Char)
    (hdom : ∀ s ∈ ss, s ∈ MAINSlist (qualityOf ss)) :
    idStrings ss bl = renderId (qualityOf ss) (findMain ss) bl := by
  have hq := qualityOf_mem ss
  have hM2 : "M2" ∉ ss := fun h => notInTables "M2" (by decide) _ hq (hdom _ h)
  have hM4 : "M4" ∉ ss := fun h => notInTables "M4" (by decide) _ hq (hdom _ h)
  have hA5 : "A5" ∉ ss := fun h => notInTables "A5" (by decide) _ hq (hdom _ h)
  have hsus : susOf ss = "" := by
    unfold susOf
    rw [if_neg (fun hc => hM2 hc.2.2), if_neg hM4]
  have hf1 : ss.filter (alterCond (qualityOf ss)) = [] :=
    List.filter_eq_nil_iff.2 (fun s hs => by
      rw [noAlter _ hq s (hdom s hs)]; exact Bool.false_ne_true)
  have hf2 : ss.filter (addCond "") = [] :=
    List.filter_eq_nil_iff.2 (fun s hs => by
      rw [noAdd _ hq s (hdom s hs)]; exact Bool.false_ne_true)
  unfold idStrings renderId
  rw [hsus]
  simp only [String.drop_empty, hf1, hf2]
  rw [if_neg (fun hc : ("" : String) = "sus2" ∧ _ => by simp at hc), if_neg hA5]
  have hj : (String.join ([] : List String) : String) = "" := rfl
  simp [hj]

theorem keyCases : ∀ q ∈ qualList, ∀ m ∈ mainList,
    (q = "dim" → m ∈ bigMainList) → ∀ bl ∈ baseLetterOpts,
    (idToChord (renderId q m bl)).map
      (fun p => idStrings ((sortIntervals p.intervals).map Interval.str) bl) =
      some (renderId q m bl) := by decide

theorem optFoldlM_isSome {α β : Type} (step : β → α → Option β) (l : List α)
    (h : ∀ acc, ∀ a ∈ l, (step acc a).isSome) :
    ∀ init, (l.foldlM step init).isSome := by
  induction l with
  | nil => intro init; rfl
  | cons x xs ih =>
      intro init
      rw [List.foldlM_cons]
      rcases hx : step init x with _ | b
      · have := h init x (by simp)
        rw [hx] at this
        cases this
      · simp only [hx, Option.bind_eq_bind, Option.some_bind]
        exact ih (fun acc a ha => h acc a (by simp [ha])) b

theorem optFoldlM_none {α β : Type} (step : β → α → Option β) (j : α)
    (h : ∀ acc, step acc j = none) :
    ∀ l : List α, j ∈ l → ∀ init, l.foldlM step init = none := by
  intro l
  induction l with
  | nil => intro hj; cases hj
  | cons x xs ih =>
      intro hj init
      rw [List.foldlM_cons]
      rcases hx : step init x with _ | b
      · simp [hx]
      · have hxj : x ≠ j := fun he => by rw [he, h init] at hx; cases hx
        have hj' : j ∈ xs := by
          rcases List.mem_cons.1 hj with h1 | h1
          · exact absurd h1.symm hxj
          · exact h1
        simp only [hx, Option.bind_eq_bind, Option.some_bind]
        exact ih hj' b

theorem mainsTable_cases (q : String) (tbl : List String)
    (h : mainsTable q = some tbl) :
    tbl = MAINSdim ∨ tbl = MAINSmin ∨ tbl = MAINSdom ∨ tbl = MAINSmaj := by
  unfold mainsTable at h
  split_ifs at h <;>
    first
      | exact Or.inl (Option.some.inj h).symm
      | exact Or.inr (Or.inl (Option.some.inj h).symm)
      | exact Or.inr (Or.inr (Or.inl (Option.some.inj h).symm))
      | exact Or.inr (Or.inr (Or.inr (Option.some.inj h).symm))

theorem buildLoop_isSome (tbl : List String)
    (htbl : tbl = MAINSdim ∨ tbl = MAINSmin ∨ tbl = MAINSdom ∨ tbl = MAINSmaj)
    (augb : Bool) (main : Nat) (hm : main ≤ 13) :
    (buildLoop tbl augb main).isSome := by
  have hm2 : main / 2 ≤ 6 := by omega
  unfold buildLoop
  apply optFoldlM_isSome
  intro acc i hi
  rcases htbl with h | h | h | h <;> subst h <;>
    (by_cases hle : i + 1 ≤ main / 2
     · have hi6 : i + 1 ≤ 6 := le_trans hle hm2
       have hi5 : i ≤ 5 := by omega
       interval_cases i <;>
         simp [hle, MAINSdim, MAINSmin, MAINSdom, MAINSmaj] <;>
         split_ifs <;> rfl
     · simp [hle])

theorem buildLoop_overflow (tbl : List String)
    (htbl : tbl = MAINSdim ∨ tbl = MAINSmin ∨ tbl = MAINSdom ∨ tbl = MAINSmaj)
    (augb : Bool) (main : Nat) (hm : 15 ≤ main) :
    buildLoop tbl augb main = none := by
  have hm2 : 7 ≤ main / 2 := by omega
  unfold buildLoop
  apply optFoldlM_none _ 6
  · intro acc
    rcases htbl with h | h | h | h <;> subst h <;>
      simp [hm2, MAINSdim, MAINSmin, MAINSdom, MAINSmaj]
  · rcases htbl with h | h | h | h <;> subst h <;> decide

theorem takeWhile_append_head_false (p : Char → Bool) (a : List Char) (c : Char)
    (cs : List Char) (ha : ∀ x ∈ a, p x) (hc : p c = false) :
    (a ++ c :: cs).takeWhile p = a ∧ (a ++ c :: cs).dropWhile p = c :: cs := by
  induction a with
  | nil => simp [List.takeWhile_cons, List.dropWhile_cons, hc]
  | cons x xs ih =>
      have hx := ha x (by simp)
      have := ih (fun y hy => ha y (by simp [hy]))
      simp [List.takeWhile_cons, List.dropWhile_cons, hx, this.1, this.2]

theorem digit_not_letter (c : Char) (h : isDigitChar c = true) :
    isNoteLetterChar c = false := by
  unfold isDigitChar at h
  unfold isNoteLetterChar
  simp only [decide_eq_true_eq] at h
  simp only [decide_eq_false_iff_not]
  omega

theorem noteMatchHere_none_iff (t : List Char) :
    noteMatchHere t = none ↔
      (t.takeWhile isNoteLetterChar = [] ∨
        (t.dropWhile isNoteLetterChar).takeWhile isDigitChar = []) := by
  unfold noteMatchHere
  split_ifs with h1 h2
  · simp [h1]
  · simp [h1, h2]
  · simp [h1, h2]

theorem noteScan_none_iff (l : List Char) :
    noteScan l = none ↔ ∀ t ∈ l.tails, noteMatchHere t = none := by
  induction l with
  | nil => simp [noteScan, List.tails, noteMatchHere]
  | cons c rest ih =>
      rw [List.tails_cons]
      rcases hm : noteMatchHere (c :: rest) with _ | r
      · simp only [noteScan, hm, List.mem_cons, forall_eq_or_imp]
        rw [ih]
        simp [hm]
      · simp only [noteScan, hm, List.mem_cons, forall_eq_or_imp]
        simp [hm]

theorem count_eq_specCount (cn sn : List Int) (hnd : cn.Nodup) :
    (cn.filter (· ∈ sn)).length = (cn.toFinset ∩ sn.toFinset).card ∧
    cn.length = cn.toFinset.card := by
  constructor
  · rw [← List.toFinset_card_of_nodup (hnd.filter _), List.toFinset_filter]
    congr 1
    rw [← Finset.filter_mem_eq_inter]
    apply Finset.filter_congr
    intro x _
    simp
  · exact (List.toFinset_card_of_nodup hnd).symm

/-- C1 counterexample: chords assembled from canonical table degrees plus a
sus (M2 with P5), an alteration (diminished fifth on a minor chord), an
addition (major sixth on a major triad), or an augmented fifth all fail the
round-trip law `idToChord(chord.id(base)).id(base) == chord.id(base)`: the
sus and addition digits are captured by the main-number pattern, alteration
and addition tags are emitted as raw interval strings the parser's
`[b#]`-prefixed patterns cannot see, and an id containing "^aug" makes the
parser read the undefined `MAINS["aug"]` table. -/
theorem C1_counterexample :
    (roundTrip (Chord.mkChord [⟨2, 0⟩, ⟨5, 0⟩]) (some ⟨'C', "", 4⟩) ≠
        some (Chord.id (Chord.mkChord [⟨2, 0⟩, ⟨5, 0⟩]) (some ⟨'C', "", 4⟩)) ∧
      Chord.id (Chord.mkChord [⟨2, 0⟩, ⟨5, 0⟩]) (some ⟨'C', "", 4⟩) = "C^sus2" ∧
      roundTrip (Chord.mkChord [⟨2, 0⟩, ⟨5, 0⟩]) (some ⟨'C', "", 4⟩) =
        some "C^3M2") ∧
    (roundTrip (Chord.mkChord [⟨3, -1⟩, ⟨5, -1⟩]) none ≠
        some (Chord.id (Chord.mkChord [⟨3, -1⟩, ⟨5, -1⟩]) none) ∧
      Chord.id (Chord.mkChord [⟨3, -1⟩, ⟨5, -1⟩]) none = "^minD5" ∧
      roundTrip (Chord.mkChord [⟨3, -1⟩, ⟨5, -1⟩]) none = some "^min") ∧
    (roundTrip (Chord.mkChord [⟨3, 0⟩, ⟨5, 0⟩, ⟨6, 0⟩]) none ≠
        some (Chord.id (Chord.mkChord [⟨3, 0⟩, ⟨5, 0⟩, ⟨6, 0⟩]) none) ∧
      Chord.id (Chord.mkChord [⟨3, 0⟩, ⟨5, 0⟩, ⟨6, 0⟩]) none = "^M6" ∧
      roundTrip (Chord.mkChord [⟨3, 0⟩, ⟨5, 0⟩, ⟨6, 0⟩]) none = some "^7") ∧
    (roundTrip (Chord.mkChord [⟨3, 0⟩, ⟨5, 1⟩]) none ≠
        some (Chord.id (Chord.mkChord [⟨3, 0⟩, ⟨5, 1⟩]) none) ∧
      Chord.id (Chord.mkChord [⟨3, 0⟩, ⟨5, 1⟩]) none = "^aug3A5" ∧
      roundTrip (Chord.mkChord [⟨3, 0⟩, ⟨5, 1⟩]) none = none) := by decide

/-- C1 (amended): for every chord all of whose interval strings are canonical
table degrees of the chord's own quality (so no sus, alteration, addition or
augmented-fifth tags arise), and every base whose letter is A..G (or no base),
`idToChord(chord.id(base)).id(base)` equals `chord.id(base)`. -/
theorem C1_roundTrip_canonical (c : Chord) (base : Option Note)
    (hdom : ∀ s ∈ c.strings, s ∈ MAINSlist c.quality)
    (hbase : base.map Note.letter ∈ baseLetterOpts) :
    roundTrip c base = some (c.id base) := by
  have hid : c.id base =
      renderId (qualityOf c.strings) (findMain c.strings) (base.map Note.letter) :=
    id_eq_render c.strings (base.map Note.letter) hdom
  have hdim : qualityOf c.strings = "dim" → findMain c.strings ∈ bigMainList :=
    fun h => findMain_big _ (qualityOf_dim _ h)
  have key := keyCases _ (qualityOf_mem c.strings) _ (findMain_mem c.strings)
    hdim _ hbase
  unfold roundTrip
  rw [hid]
  exact key

/-- C1 witness: the minor seventh chord {m3, P5, m7} rooted at C satisfies
the amended round-trip law. -/
theorem C1_roundTrip_canonical_witness :
    roundTrip (Chord.mkChord [⟨3, -1⟩, ⟨5, 0⟩, ⟨7, -1⟩]) (some ⟨'C', "", 4⟩) =
      some (Chord.id (Chord.mkChord [⟨3, -1⟩, ⟨5, 0⟩, ⟨7, -1⟩])
        (some ⟨'C', "", 4⟩)) :=
  C1_roundTrip_canonical _ _ (by decide) (by decide)

/-- C2: `quality()` is the priority chain dim / min / maj / dom over string
membership of m3, D5, D7 and M7; the chord {m3, P5, m7} has quality "min" and
its id rooted at C is "C^min7". -/
theorem C2_quality :
    (∀ c : Chord,
      c.quality =
        (if "m3" ∈ c.strings ∧ "D5" ∈ c.strings ∧ "D7" ∈ c.strings then "dim"
         else if "m3" ∈ c.strings then "min"
         else if "M7" ∈ c.strings then "maj"
         else "dom")) ∧
    (Chord.mkChord [⟨3, -1⟩, ⟨5, 0⟩, ⟨7, -1⟩]).quality = "min" ∧
    Chord.id (Chord.mkChord [⟨3, -1⟩, ⟨5, 0⟩, ⟨7, -1⟩]) (some ⟨'C', "", 4⟩) =
      "C^min7" := by
  refine ⟨fun c => ?_, by decide, by decide⟩
  rcases Classical.em ("m3" ∈ c.strings) with h1 | h1
  · rcases Classical.em ("D5" ∈ c.strings) with h2 | h2
    · rcases Classical.em ("D7" ∈ c.strings) with h3 | h3 <;>
        simp [Chord.quality, qualityOf, h1, h2, h3]
    · simp [Chord.quality, qualityOf, h1, h2]
  · simp [Chord.quality, qualityOf, h1]

/-- C3 counterexample: `generateScale` on the unrecognized name "dorian" does
not return the 7-note major template; it returns `new Scale(base)`, a scale
with no intervals at all. -/
theorem C3_counterexample :
    generateScale "dorian" ⟨'C', "", 4⟩ ≠ generateScale "major" ⟨'C', "", 4⟩ ∧
    (generateScale "dorian" ⟨'C', "", 4⟩).intervals = [] ∧
    (generateScale "major" ⟨'C', "", 4⟩).intervals.length = 6 := by decide

/-- C3 (amended): for every scale name outside the recognized list and any
base, `generateScale` returns a scale with that base and no intervals (the
base note alone), not an error. -/
theorem C3_fallback (name : String) (base : Note) (h : name ∉ SCALES) :
    generateScale name base = ⟨base, []⟩ := by
  have h1 : name ≠ "major" := fun he => h (by rw [he]; decide)
  have h2 : name ≠ "natural minor" := fun he => h (by rw [he]; decide)
  have h3 : name ≠ "harmonic minor" := fun he => h (by rw [he]; decide)
  have h4 : name ≠ "melodic minor" := fun he => h (by rw [he]; decide)
  have h5 : name ≠ "major pentatonic scale" := fun he => h (by rw [he]; decide)
  have h6 : name ≠ "minor pentatonic scale" := fun he => h (by rw [he]; decide)
  have h7 : name ≠ "blues scale" := fun he => h (by rw [he]; decide)
  simp [generateScale, h1, h2, h3, h4, h5, h6, h7]

/-- C3 witness: the unrecognized name "dorian" at C4 yields the bare base
scale. -/
theorem C3_fallback_witness :
    generateScale "dorian" ⟨'C', "", 4⟩ = ⟨⟨'C', "", 4⟩, []⟩ :=
  C3_fallback "dorian" ⟨'C', "", 4⟩ (by decide)

/-- C4: the non-power branch of `structure()` cannot see degrees: its filter
applies `% 2` to Interval objects (NaN, falsy), so the chord {M3, P5}, which
the claim classifies as "triad", yields "" — while the power branch itself
works. -/
theorem C4_structure_eval :
    Chord.structureName (Chord.mkChord [⟨5, 0⟩]) = "power" ∧
    Chord.structureName (Chord.mkChord [⟨3, 0⟩, ⟨5, 0⟩]) = "" := by decide

/-- C5: at n = G4 and i = P5 (number 5 ≥ 1, 7 semitones), `n.add(i)` is D5,
but `D5.subtract(G4)` computes diatonic number `(1 - 4) % 7 + 1 = -2` with
JS truncated remainder and then reads the semitone table at the negative
index `-3`, poisoning the quality with NaN (modelled `none`) — not an
interval with number 5 and 7 semitones. -/
theorem C5_addSubtract_eval :
    Interval.toSemitones ⟨5, 0⟩ = some 7 ∧
    Note.add ⟨'G', "", 4⟩ ⟨5, 0⟩ = some ⟨'D', "", 5⟩ ∧
    Note.subtract ⟨'D', "", 5⟩ ⟨'G', "", 4⟩ = none := by decide

/-- C7: "natural minor" flattens degrees 3, 6 and 7 of the major template,
and its notes at C4 have pitch classes 0, 2, 3, 5, 7, 8, 10. -/
theorem C7_naturalMinor :
    (generateScale "major" ⟨'C', "", 4⟩).intervals =
      [⟨2, 0⟩, ⟨3, 0⟩, ⟨4, 0⟩, ⟨5, 0⟩, ⟨6, 0⟩, ⟨7, 0⟩] ∧
    (generateScale "natural minor" ⟨'C', "", 4⟩).intervals =
      [⟨2, 0⟩, ⟨3, -1⟩, ⟨4, 0⟩, ⟨5, 0⟩, ⟨6, -1⟩, ⟨7, -1⟩] ∧
    ((generateScale "natural minor" ⟨'C', "", 4⟩).notes).bind pcsOfNotes =
      some [0, 2, 3, 5, 7, 8, 10] := by decide

/-- C8: `sus()` returns "sus2" exactly when no m3 and no M3 but an M2 string
is present; "sus4" exactly when that first condition fails and an M4 string is
present; and "" exactly otherwise (note that no interval ever prints as "M4",
number 4 being perfect-class, so the "sus4" case is in fact vacuous). -/
theorem C8_sus (c : Chord) :
    (c.sus = "sus2" ↔
      "m3" ∉ c.strings ∧ "M3" ∉ c.strings ∧ "M2" ∈ c.strings) ∧
    (c.sus = "sus4" ↔
      ¬("m3" ∉ c.strings ∧ "M3" ∉ c.strings ∧ "M2" ∈ c.strings) ∧
        "M4" ∈ c.strings) ∧
    (c.sus = "" ↔
      ¬("m3" ∉ c.strings ∧ "M3" ∉ c.strings ∧ "M2" ∈ c.strings) ∧
        "M4" ∉ c.strings) := by
  unfold Chord.sus susOf
  split_ifs with h1 h2
  · simp [h1]
  · simp [h1, h2]
  · simp [h1, h2]

/-- C9 counterexample: the text "A4!" is not of the form letters-then-digits,
yet `strToNote` returns a Note rather than null, because its regex is not
anchored and matches the "A4" substring. -/
theorem C9_counterexample :
    isNoteForm "A4!" = false ∧ Note.strToNote "A4!" = some ⟨'A', "", 4⟩ := by
  decide

/-- C9 (amended): `strToNote` parses the first letters-then-digits substring:
for a text wholly of the form `<letters><digits>` it returns the
corresponding Note (first letter, remaining letters as accidental text,
digits as octave), and it returns null exactly for texts in which no run of
note letters is immediately followed by a digit. -/
theorem C9_strToNote :
    (∀ a b : List Char, a ≠ [] → (∀ x ∈ a, isNoteLetterChar x) → b ≠ [] →
      (∀ x ∈ b, isDigitChar x) →
      Note.strToNote (String.mk (a ++ b)) =
        some (noteName (String.mk a) (digitsVal b))) ∧
    (∀ s : String, Note.strToNote s = none ↔
      ∀ t ∈ s.data.tails,
        t.takeWhile isNoteLetterChar = [] ∨
        (t.dropWhile isNoteLetterChar).takeWhile isDigitChar = []) := by
  constructor
  · intro a b ha hal hb hbd
    rcases b with _ | ⟨c, b'⟩
    · exact absurd rfl hb
    have hc : isNoteLetterChar c = false := digit_not_letter c (hbd c (by simp))
    have htw := takeWhile_append_head_false isNoteLetterChar a c b' hal hc
    have hds : (c :: b').takeWhile isDigitChar = c :: b' :=
      List.takeWhile_eq_self_iff.mpr hbd
    have hm : noteMatchHere (a ++ c :: b') = some (a, c :: b') := by
      unfold noteMatchHere
      rw [htw.1, htw.2, hds, if_neg ha, if_neg (List.cons_ne_nil c b')]
    rcases a with _ | ⟨x, a'⟩
    · exact absurd rfl ha
    rw [List.cons_append] at hm
    unfold Note.strToNote
    show (noteScan (((x :: a') ++ c :: b'))).map _ = _
    rw [List.cons_append]
    simp only [noteScan, hm]
    rfl
  · intro s
    unfold Note.strToNote
    rw [Option.map_eq_none', noteScan_none_iff]
    simp only [noteMatchHere_none_iff]

/-- C9 witness: "A4" parses to the note A4, and "!!" (no letter-digit run)
parses to null. -/
theorem C9_strToNote_witness :
    Note.strToNote "A4" = some ⟨'A', "", 4⟩ ∧ Note.strToNote "!!" = none := by
  constructor
  · exact C9_strToNote.1 ['A'] ['4'] (by decide) (by decide) (by decide)
      (by decide)
  · exact (C9_strToNote.2 "!!").2 (by decide)

/-- C6 counterexample: for the chord {M3, P8} at C the note pitch-class list
is [0, 4, 0]; against C natural minor the code computes the proportion 2/3
(two of three list entries match), while the claim's set formula
`|chord pcs ∩ scale pcs| / |chord pcs|` gives 1/2. -/
theorem C6_counterexample :
    proportionFor dupChordC "C" "natural minor" ≠
      specProportionFor dupChordC "C" "natural minor" := by
  have h1 : countFor dupChordC "C" "natural minor" = some (2, 3) := by decide
  have h2 : specCountFor dupChordC "C" "natural minor" = some (1, 2) := by decide
  unfold proportionFor specProportionFor
  rw [h1, h2]
  simp only [Option.map_some', ne_eq, Option.some.injEq]
  norm_num

/-- C6 (amended): the proportion `findMatchingScales` computes for each root
and scale is the matching count over the chord's note pitch-class list, with
multiplicity; it agrees with the claim's set formula whenever the chord's
pitch classes are distinct; and for the major triad (M3, P5) rooted at C,
"C major" and every scale whose pitch classes include 0, 4 and 7 appear in
the group at proportion 1.0. -/
theorem C6_matching :
    (∀ (c : ChordWithBase) (root scaleName : String) (cn sn : List Int),
      chordPcs c = some cn → scalePcs root scaleName = some sn → cn.Nodup →
      proportionFor c root scaleName = specProportionFor c root scaleName) ∧
    "C major" ∈ triadC.findMatchingScales 1 ∧
    (∀ rs ∈ rootScalePairs, ∀ sn : List Int, scalePcs rs.1 rs.2 = some sn →
      (0 : Int) ∈ sn → (4 : Int) ∈ sn → (7 : Int) ∈ sn →
      scaleLabel rs ∈ triadC.findMatchingScales 1) := by
  refine ⟨?_, ?_, ?_⟩
  · intro c root scaleName cn sn hcn hsn hnd
    have h := count_eq_specCount cn sn hnd
    simp only [proportionFor, specProportionFor, countFor, specCountFor, hcn,
      hsn, Option.bind_eq_bind, Option.some_bind, Option.map_some']
    rw [h.1, h.2]
  · have hcf : countFor triadC "C" "major" = some (3, 3) := by decide
    have hp : proportionFor triadC "C" "major" = some 1 := by
      unfold proportionFor
      rw [hcf]
      simp only [Option.map_some']
      norm_num
    unfold ChordWithBase.findMatchingScales
    exact List.mem_map.2
      ⟨("C", "major"), List.mem_filter.2 ⟨by decide, decide_eq_true hp⟩, rfl⟩
  · intro rs hrs sn hsn h0 h4 h7
    have hcn : chordPcs triadC = some [0, 4, 7] := by decide
    have hf : ([0, 4, 7] : List Int).filter (· ∈ sn) = [0, 4, 7] := by
      apply List.filter_eq_self.2
      intro a ha
      simp only [List.mem_cons, List.not_mem_nil, or_false] at ha
      rcases ha with rfl | rfl | rfl <;> simp [h0, h4, h7]
    have hcf : countFor triadC rs.1 rs.2 = some (3, 3) := by
      simp only [countFor, hcn, hsn, Option.bind_eq_bind, Option.some_bind]
      rw [hf]
      rfl
    have hp : proportionFor triadC rs.1 rs.2 = some 1 := by
      unfold proportionFor
      rw [hcf]
      simp only [Option.map_some']
      norm_num
    unfold ChordWithBase.findMatchingScales
    exact List.mem_map.2 ⟨rs, List.mem_filter.2 ⟨hrs, decide_eq_true hp⟩, rfl⟩

/-- C6 witness: for the duplicate-free major triad at C against C major the
code proportion and the set proportion coincide. -/
theorem C6_matching_witness :
    proportionFor triadC "C" "major" = specProportionFor triadC "C" "major" :=
  C6_matching.1 triadC "C" "major" [0, 4, 7] [0, 2, 4, 5, 7, 9, 11]
    (by decide) (by decide) (by decide)

theorem idToChord_total_aux (s : String) (hq : parsedQualityOf s ∈ qualList)
    (hm : parsedMainOf s ≤ 13) : (idToChord s).isSome := by
  simp only [idToChord]
  split
  next heq =>
    exfalso
    have hq' := hq
    simp only [qualList, List.mem_cons, List.not_mem_nil, or_false] at hq'
    rcases hq' with h | h | h | h <;> simp [h, mainsTable] at heq
  next tbl heq =>
    split
    next heq2 =>
      exfalso
      have hs := buildLoop_isSome tbl (mainsTable_cases _ _ heq)
        (hasSub "aug".data s.data) (parsedMainOf s) hm
      rw [heq2] at hs
      cases hs
    next ivs0 ex5 heq2 => rfl

theorem idToChord_overflow_aux (s : String) (hm : 15 ≤ parsedMainOf s) :
    idToChord s = none := by
  simp only [idToChord]
  split
  · rfl
  next tbl heq =>
    split
    · rfl
    next ivs0 ex5 heq2 =>
      exfalso
      rw [buildLoop_overflow tbl (mainsTable_cases _ _ heq) _ _ hm] at heq2
      cases heq2

/-- C10 (amended): `idToChord` indexes only defined table entries and returns
a chord whenever the parsed quality is one of dim, min, dom, maj and the
parsed main number is at most 13; for a parsed main number of 15 or more the
reconstruction loop reads past the 7-entry table (modelled as an error), and a
parsed quality of "aug" reads the undefined `MAINS["aug"]` row, so the
precondition must also exclude it. -/
theorem C10_idToChord_guard :
    (∀ s : String, parsedQualityOf s ∈ qualList → parsedMainOf s ≤ 13 →
      (idToChord s).isSome) ∧
    (∀ s : String, 15 ≤ parsedMainOf s → idToChord s = none) :=
  ⟨idToChord_total_aux, idToChord_overflow_aux⟩

/-- C10 counterexample: the id "^aug" has parsed main number 5 ≤ 13, but its
parsed quality is "aug", whose table lookup throws (modelled `none`) — the
reconstruction does not return a chord. -/
theorem C10_counterexample :
    parsedMainOf "^aug" = 5 ∧ parsedQualityOf "^aug" = "aug" ∧
    idToChord "^aug" = none := by decide

/-- C10 witness: "^min7" (quality min, main 7) reconstructs a chord, and
"^min15" (main 15) errors. -/
theorem C10_guard_witness :
    (idToChord "^min7").isSome ∧ idToChord "^min15" = none :=
  ⟨C10_idToChord_guard.1 "^min7" (by decide) (by decide),
   C10_idToChord_guard.2 "^min15" (by decide)⟩

end Chordbase
